import Mathlib

/-!
Verification model of the OpenAugi Obsidian transcript-parser plugin
(`src/main.ts`).  Strings are modelled as `List Char`; the Obsidian vault
as an explicit record of folders and files; the OpenAI completion call as
an environment-supplied `FetchOutcome`.  The JavaScript builtins the code
relies on (`JSON.parse`, `JSON.stringify`, `String.prototype.match` with
the fence regex, `String.prototype.trim`) are modelled faithfully below.
-/

namespace OpenAugi

abbrev Str := List Char

/-- The backtick character (written via its code point throughout). -/
def backtick : Char := Char.ofNat 96

/-- JSON whitespace, as accepted by `JSON.parse`: space, tab, LF, CR. -/
def isJsonWs (c : Char) : Bool :=
  c = ' ' || c = '\t' || c = '\n' || c = '\r'

/-- JavaScript whitespace, as matched by the regex class `\s` and by
`String.prototype.trim` (the common code points; exotic Unicode spaces are
not exercised by this program). -/
def isJsWs (c : Char) : Bool :=
  c = ' ' || c = '\t' || c = '\n' || c = '\r' ||
  c = Char.ofNat 11 || c = Char.ofNat 12 || c = Char.ofNat 160 ||
  c = Char.ofNat 0xfeff

/-- Model of `String.prototype.trim`. -/
def trim (s : Str) : Str :=
  ((s.dropWhile isJsWs).reverse.dropWhile isJsWs).reverse

/-- Model of `Array.prototype.join(sep)` for a one-character separator. -/
def joinSep (sep : Char) : List Str → Str
  | [] => []
  | [l] => l
  | l :: ls => l ++ sep :: joinSep sep ls

/-- Split a string at newline characters, as `"…".split('\n')` would. -/
def splitNl : Str → List Str
  | [] => [[]]
  | '\n' :: t => [] :: splitNl t
  | c :: t =>
    match splitNl t with
    | [] => [[c]]
    | h :: r => (c :: h) :: r

/-- The checkbox marker the task writer prepends to every task. -/
def checkboxMarker : Str := "- [ ] ".toList

/-- A line of a document counts as a checkbox line when it starts with
the `- [ ] ` marker. -/
def isCheckboxLine (l : Str) : Bool := checkboxMarker.isPrefixOf l

/-- The checkbox lines of a document, in order. -/
def checkboxLines (s : Str) : List Str := (splitNl s).filter isCheckboxLine

/-- Number of checkbox lines of a document. -/
def checkboxCount (s : Str) : Nat := (checkboxLines s).length

/-! ## JSON values and a model of the `JSON.parse` builtin -/

/-- JSON values.  Numbers keep their source lexeme: no claim of this
development inspects numeric values, and this avoids modelling binary
floating point. -/
inductive Json where
  | null : Json
  | bool (b : Bool) : Json
  | num (lexeme : Str) : Json
  | str (s : Str) : Json
  | arr (elements : List Json) : Json
  | obj (members : List (Str × Json)) : Json

instance : Inhabited Json := ⟨Json.null⟩

/-- A JavaScript value as seen after member access: either `undefined`
(`none`) or a JSON value. -/
abbrev JsValue := Option Json

def skipWs (l : Str) : Str := l.dropWhile isJsonWs

def hexVal (c : Char) : Option Nat :=
  if '0' ≤ c ∧ c ≤ '9' then some (c.toNat - 48)
  else if 'a' ≤ c ∧ c ≤ 'f' then some (c.toNat - 87)
  else if 'A' ≤ c ∧ c ≤ 'F' then some (c.toNat - 55)
  else none

def escDecode (e : Char) : Option Char :=
  if e = '"' then some '"'
  else if e = '\\' then some '\\'
  else if e = '/' then some '/'
  else if e = 'b' then some (Char.ofNat 8)
  else if e = 'f' then some (Char.ofNat 12)
  else if e = 'n' then some '\n'
  else if e = 'r' then some '\r'
  else if e = 't' then some '\t'
  else none

/-- Fueled JSON string-body scanner: the input starts right after the
opening quote; returns the decoded characters and the text after the
closing quote.  One unit of fuel per source character. -/
def parseStrB : Nat → Str → Option (Str × Str)
  | 0, _ => none
  | Nat.succ f, l =>
    match l with
    | [] => none
    | c :: t =>
      if c = '"' then some ([], t)
      else if c = '\\' then
        match t with
        | 'u' :: h1 :: h2 :: h3 :: h4 :: t5 =>
          match hexVal h1, hexVal h2, hexVal h3, hexVal h4 with
          | some d1, some d2, some d3, some d4 =>
            (parseStrB f t5).map
              (fun p => (Char.ofNat (((d1 * 16 + d2) * 16 + d3) * 16 + d4) :: p.1, p.2))
          | _, _, _, _ => none
        | e :: t2 =>
          match escDecode e with
          | some ch => (parseStrB f t2).map (fun p => (ch :: p.1, p.2))
          | none => none
        | [] => none
      else if c.toNat < 32 then none
      else (parseStrB f t).map (fun p => (c :: p.1, p.2))

def takeDigits (l : Str) : Str × Str :=
  (l.takeWhile Char.isDigit, l.dropWhile Char.isDigit)

def parseFracPart (l : Str) : Option (Str × Str) :=
  match l with
  | '.' :: t =>
    let p := takeDigits t
    if p.1 = [] then none else some ('.' :: p.1, p.2)
  | _ => some ([], l)

def parseExpPart (l : Str) : Option (Str × Str) :=
  match l with
  | c :: t =>
    if c = 'e' ∨ c = 'E' then
      let sp : Str × Str :=
        match t with
        | s :: t2 => if s = '+' ∨ s = '-' then ([s], t2) else ([], s :: t2)
        | [] => ([], [])
      let p := takeDigits sp.2
      if p.1 = [] then none else some (c :: sp.1 ++ p.1, p.2)
    else some ([], l)
  | [] => some ([], l)

/-- Lex a JSON number token, returning its lexeme and the rest. -/
def parseNumLex (l : Str) : Option (Str × Str) :=
  let sl : Str × Str :=
    match l with
    | '-' :: t => (['-'], t)
    | _ => ([], l)
  match sl.2 with
  | c :: t =>
    if c = '0' then
      (parseFracPart t).bind fun fr =>
        (parseExpPart fr.2).map fun ex => (sl.1 ++ '0' :: fr.1 ++ ex.1, ex.2)
    else if c.isDigit then
      let ds := takeDigits t
      (parseFracPart ds.2).bind fun fr =>
        (parseExpPart fr.2).map fun ex => (sl.1 ++ c :: ds.1 ++ fr.1 ++ ex.1, ex.2)
    else none
  | [] => none

/-- JavaScript object-property assignment: a duplicate key overwrites the
earlier value in place, otherwise the property is appended. -/
def objInsert (fs : List (Str × Json)) (k : Str) (v : Json) : List (Str × Json) :=
  if fs.any (fun e => e.1 == k) then
    fs.map (fun e => if e.1 == k then (e.1, v) else e)
  else fs ++ [(k, v)]

/-- Build a JavaScript object from parsed members, in source order. -/
def jsNormalize (raw : List (Str × Json)) : List (Str × Json) :=
  raw.foldl (fun acc e => objInsert acc e.1 e.2) []

/-- Modes of the recursive-descent JSON reader: a value, the elements of
a non-empty array (`.elems` yields `Json.arr`), or the members of a
non-empty object (`.members` yields `Json.obj` with the raw member list). -/
inductive PMode where
  | value : PMode
  | elems : PMode
  | members : PMode

/-- Fueled recursive-descent reader implementing the `JSON.parse`
grammar.  Structured as a single function over a fuel parameter so that
it is structurally recursive (and hence computes by kernel reduction). -/
def parseFuel : Nat → PMode → Str → Option (Json × Str)
  | 0, _, _ => none
  | Nat.succ f, PMode.value, l =>
    match skipWs l with
    | '{' :: t =>
      (match skipWs t with
       | '}' :: r => some (.obj [], r)
       | _ =>
         match parseFuel f .members t with
         | some (.obj raw, r) => some (.obj (jsNormalize raw), r)
         | _ => none)
    | '[' :: t =>
      (match skipWs t with
       | ']' :: r => some (.arr [], r)
       | _ => parseFuel f .elems t)
    | '"' :: t => (parseStrB f t).map (fun p => (Json.str p.1, p.2))
    | 'n' :: 'u' :: 'l' :: 'l' :: t => some (.null, t)
    | 't' :: 'r' :: 'u' :: 'e' :: t => some (.bool true, t)
    | 'f' :: 'a' :: 'l' :: 's' :: 'e' :: t => some (.bool false, t)
    | l1 => (parseNumLex l1).map (fun p => (Json.num p.1, p.2))
  | Nat.succ f, PMode.elems, l =>
    match parseFuel f .value l with
    | some (v, r) =>
      (match skipWs r with
       | ',' :: t =>
         (match parseFuel f .elems t with
          | some (.arr es, r2) => some (.arr (v :: es), r2)
          | _ => none)
       | ']' :: t => some (.arr [v], t)
       | _ => none)
    | _ => none
  | Nat.succ f, PMode.members, l =>
    match skipWs l with
    | '"' :: t =>
      (match parseStrB f t with
       | some (k, r1) =>
         (match skipWs r1 with
          | ':' :: r2 =>
            (match parseFuel f .value r2 with
             | some (v, r3) =>
               (match skipWs r3 with
                | ',' :: r4 =>
                  (match parseFuel f .members r4 with
                   | some (.obj ms, r5) => some (.obj ((k, v) :: ms), r5)
                   | _ => none)
                | '}' :: r4 => some (.obj [(k, v)], r4)
                | _ => none)
             | _ => none)
          | _ => none)
       | _ => none)
    | _ => none

/-- Model of the `JSON.parse` builtin: parse one value, then require that
only whitespace remains.  The fuel `length + 1` suffices for every input
this program can encounter (fuel is consumed at least once per input
character along any accepting run). -/
def JSONparse (l : Str) : Option Json :=
  match parseFuel (l.length + 1) PMode.value l with
  | some (j, r) => if skipWs r = [] then some j else none
  | none => none

/-! ## The structured extraction record and `JSON.stringify` -/

structure Note where
  title : Str
  content : Str

/-- The `{summary, notes, tasks}` record the prompt instructs the model
to return. -/
structure StructuredExtraction where
  summary : Str
  notes : List Note
  tasks : List Str

def hexDigitChar (n : Nat) : Char :=
  if n < 10 then Char.ofNat (48 + n) else Char.ofNat (87 + n)

/-- Per-character escaping of `JSON.stringify` for string contents:
quote, backslash and control characters are escaped; everything else
(backticks included) passes through verbatim. -/
def escAux (c : Char) : Str :=
  if c = '"' then ['\\', '"']
  else if c = '\\' then ['\\', '\\']
  else if c = Char.ofNat 8 then ['\\', 'b']
  else if c = Char.ofNat 12 then ['\\', 'f']
  else if c = '\n' then ['\\', 'n']
  else if c = '\r' then ['\\', 'r']
  else if c = '\t' then ['\\', 't']
  else if c.toNat < 32 then
    ['\\', 'u', '0', '0', hexDigitChar (c.toNat / 16), hexDigitChar (c.toNat % 16)]
  else [c]

def escBody : Str → Str
  | [] => []
  | c :: t => escAux c ++ escBody t

/-- `JSON.stringify` of a string. -/
def quoteStr (s : Str) : Str := '"' :: escBody s ++ ['"']

/-- `JSON.stringify` of one `{title, content}` note object: a brace,
the quoted `title` key, a colon, the quoted title, a comma, the quoted
`content` key, a colon, the quoted content, a closing brace. -/
def stringifyNote (n : Note) : Str :=
  '{' :: (quoteStr ("title".toList) ++ ':' :: (quoteStr n.title ++ ',' ::
    (quoteStr ("content".toList) ++ ':' :: (quoteStr n.content ++ ['}']))))

def stringifyNotes (ns : List Note) : Str := joinSep ',' (ns.map stringifyNote)

def stringifyTasks (ts : List Str) : Str := joinSep ',' (ts.map quoteStr)

/-- Model of the `JSON.stringify` builtin applied to a
`StructuredExtraction` object (properties in insertion order
`summary`, `notes`, `tasks`; no spacing argument; keys quoted like
strings; array elements joined with commas inside brackets). -/
def stringifySE (v : StructuredExtraction) : Str :=
  '{' :: (quoteStr ("summary".toList) ++ ':' :: (quoteStr v.summary ++ ',' ::
    (quoteStr ("notes".toList) ++ ':' :: ('[' :: (stringifyNotes v.notes ++ ']' :: ',' ::
      (quoteStr ("tasks".toList) ++ ':' :: ('[' :: (stringifyTasks v.tasks ++ [']', '}']))))))))

def noteJson (n : Note) : Json :=
  .obj [("title".toList, .str n.title), ("content".toList, .str n.content)]

/-- The JSON value a `StructuredExtraction` denotes (what `JSON.parse`
returns on its serialized form): deep equality with the original record. -/
def jsonOfSE (v : StructuredExtraction) : Json :=
  .obj [("summary".toList, .str v.summary),
        ("notes".toList, .arr (v.notes.map noteJson)),
        ("tasks".toList, .arr (v.tasks.map Json.str))]

/-! ### Fuel bounds for parsing serialized extractions

`parseFuel` consumes fuel; the following quantities are (sufficient) fuel
costs for re-parsing the serialized forms above, used to show that the
`length + 1` fuel of `JSONparse` always suffices on them. -/

def keyCost (k : Str) : Nat := k.length + 1

def costStr (s : Str) : Nat := s.length + 2

def lastMemberCost (k : Str) (cv : Nat) : Nat := keyCost k + cv + 1

def consMemberCost (k : Str) (cv rest : Nat) : Nat := keyCost k + cv + rest + 1

def lastElemCost (cv : Nat) : Nat := cv + 1

def consElemCost (cv rest : Nat) : Nat := cv + rest + 1

def costNote (n : Note) : Nat :=
  consMemberCost ("title".toList) (costStr n.title)
    (lastMemberCost ("content".toList) (costStr n.content)) + 1

def costNotesElems : List Note → Nat
  | [] => 0
  | [n] => lastElemCost (costNote n)
  | n :: ns => consElemCost (costNote n) (costNotesElems ns)

def costTasksElems : List Str → Nat
  | [] => 0
  | [t] => lastElemCost (costStr t)
  | t :: ts => consElemCost (costStr t) (costTasksElems ts)

def costNotesValue (ns : List Note) : Nat :=
  match ns with
  | [] => 1
  | _ => costNotesElems ns + 1

def costTasksValue (ts : List Str) : Nat :=
  match ts with
  | [] => 1
  | _ => costTasksElems ts + 1

def costSE (V : StructuredExtraction) : Nat :=
  consMemberCost ("summary".toList) (costStr V.summary)
    (consMemberCost ("notes".toList) (costNotesValue V.notes)
      (lastMemberCost ("tasks".toList) (costTasksValue V.tasks))) + 1

/-! ## The fence regex and the response extractor -/

/-- Three backticks. -/
def tbt : Str := [backtick, backtick, backtick]

/-- Locate the first occurrence of three consecutive backticks, returning
the text before it and the text after it. -/
def splitAtTriple : Str → Option (Str × Str)
  | [] => none
  | l@(c :: t) =>
    if tbt.isPrefixOf l then some ([], l.drop 3)
    else
      match splitAtTriple t with
      | some p => some (c :: p.1, p.2)
      | none => none

/-- Continuation of the fence regex after an opening triple backtick:
optionally consume a `json` tag, consume `\s*` greedily, then capture
lazily up to the next triple backtick.  (Backtracking into `(?:json)?` or
`\s*` can never turn a failure into a success, because neither `json` nor
whitespace contains a backtick.) -/
def fenceInner (s : Str) : Option Str :=
  let s1 := if ("json".toList).isPrefixOf s then s.drop 4 else s
  let s2 := s1.dropWhile isJsWs
  match splitAtTriple s2 with
  | some p => some p.1
  | none => none

/-- First capture group of the JavaScript regex
`⟍``⟍``⟍``(?:json)?\s*([\s\S]*?)⟍``⟍``⟍``` run on the text (scanning start
positions left to right, as `String.prototype.match` does). -/
def regexFenceCapture : Str → Option Str
  | [] => none
  | l@(_ :: t) =>
    if tbt.isPrefixOf l then
      match fenceInner (l.drop 3) with
      | some cap => some cap
      | none => regexFenceCapture t
    else regexFenceCapture t

/-- Lines 130–137 of `main.ts`: strip the first fenced code block if one
is present (trimming the captured text); otherwise keep the raw reply. -/
def cleanContent (messageContent : Str) : Str :=
  match regexFenceCapture messageContent with
  | some cap => trim cap
  | none => messageContent

/-- Wrap a serialized payload in a `json`-tagged fenced code block, the
way a model reply typically does. -/
def wrapFence (s : Str) : Str := tbt ++ "json\n".toList ++ s ++ '\n' :: tbt

/-- The error taxonomy of the pipeline (each constructor corresponds to
one `throw` site or host-level exception in `main.ts`). -/
inductive JsError where
  | apiKeyNotSet : JsError
  | fetchFailed : JsError
  | apiError (status : Nat) (message : Str) : JsError
  | noContent : JsError
  | parseFailure (candidate : Str) : JsError
  | typeError : JsError
  | fileAlreadyExists (path : Str) : JsError

/-- Lines 130–146 of `main.ts`: clean the reply, then `JSON.parse` it; a
parse failure is rethrown as a distinct error after logging the offending
candidate text. -/
def extractStep (messageContent : Str) : Except JsError Json :=
  match JSONparse (cleanContent messageContent) with
  | some structuredData => .ok structuredData
  | none => .error (.parseFailure (cleanContent messageContent))

/-! ## JavaScript dynamic semantics used after `JSON.parse` -/

/-- Property access `j[k]` on a parsed JSON value: throws on `null`,
returns the property (or `undefined`) on objects, and `undefined` on
other primitives/arrays (none of the accessed keys is a built-in
property). -/
def jsGet (j : Json) (k : Str) : Except JsError JsValue :=
  match j with
  | .null => .error .typeError
  | .obj fs => .ok ((fs.find? (fun e => e.1 == k)).map Prod.snd)
  | _ => .ok none

/-- `for (const x of v)`: arrays iterate their elements, strings iterate
their characters, everything else throws a TypeError. -/
def jsIterate (v : JsValue) : Except JsError (List Json) :=
  match v with
  | some (.arr xs) => .ok xs
  | some (.str s) => .ok (s.map (fun c => Json.str [c]))
  | _ => .error .typeError

mutual

/-- JavaScript ToString on parsed JSON values (arrays join their elements
with commas, `null` elements becoming empty, as `Array.prototype.join`
does). -/
def jstr : Json → Str
  | .null => "null".toList
  | .bool true => "true".toList
  | .bool false => "false".toList
  | .num lexeme => lexeme
  | .str s => s
  | .arr xs => joinSep ',' (jstrElems xs)
  | .obj _ => "[object Object]".toList

def jstrElems : List Json → List Str
  | [] => []
  | x :: xs =>
    (match x with
     | .null => []
     | y => jstr y) :: jstrElems xs

end

/-- JavaScript ToString as used by template literals (`${…}`):
`undefined` prints as the string `undefined`. -/
def jsToString (v : JsValue) : Str :=
  match v with
  | none => "undefined".toList
  | some j => jstr j

/-! ## The vault (document store) and the pipeline -/

/-- The Obsidian vault: folders and files (path with content), both in
creation order. -/
structure Vault where
  folders : List Str
  files : List (Str × Str)

def Vault.hasFile (v : Vault) (p : Str) : Bool :=
  v.files.any (fun e => e.1 == p)

/-- `adapter.exists`: true for a folder or a file at the path. -/
def Vault.pathExists (v : Vault) (p : Str) : Bool :=
  v.folders.contains p || v.hasFile p

def Vault.createFolder (v : Vault) (p : Str) : Vault :=
  { v with folders := v.folders ++ [p] }

/-- `vault.create`: fails if anything already exists at the path. -/
def Vault.createFile (v : Vault) (p c : Str) : Except JsError Vault :=
  if v.pathExists p then .error (.fileAlreadyExists p)
  else .ok { v with files := v.files ++ [(p, c)] }

/-- `vault.read` (callers only read files they have located). -/
def Vault.readFile (v : Vault) (p : Str) : Str :=
  ((v.files.find? (fun e => e.1 == p)).map Prod.snd).getD []

/-- `vault.modify`: overwrite the content of an existing file. -/
def Vault.modifyFile (v : Vault) (p c : Str) : Vault :=
  { v with files := v.files.map (fun e => if e.1 == p then (e.1, c) else e) }

structure Settings where
  apiKey : Str

/-- Outcome of the single `fetch` to the completion endpoint, supplied by
the environment: transport failure, non-ok HTTP response (with the
optional service-reported error message), or an ok response carrying
`choices[0].message.content` (`none` models an absent/null content). -/
inductive FetchOutcome where
  | fetchFailed : FetchOutcome
  | httpError (status : Nat) (errMessage : Option Str) : FetchOutcome
  | success (messageContent : Option Str) : FetchOutcome

/-- Result of one pipeline invocation: the vault after all writes that
happened, the `Notice` messages shown, whether the network was called,
and the overall outcome. -/
structure RunResult where
  vault : Vault
  notices : List Str
  networkCalled : Bool
  result : Except JsError Unit

def apiKeyNotice : Str := "Please set your OpenAI API key in the plugin settings".toList

def successNotice (basename : Str) : Str :=
  "Successfully parsed transcript: ".toList ++ basename

def failureNotice : Str := "Failed to parse transcript. Check console for details.".toList

def openMdNotice : Str := "Please open a markdown transcript file first".toList

def outputDirs : List Str :=
  ["Parsed_Notes".toList, "Parsed_Notes/summaries".toList, "Parsed_Notes/notes".toList]

def ensureDirsFrom (dirs : List Str) (v : Vault) : Vault :=
  dirs.foldl (fun v dir => if v.pathExists dir then v else v.createFolder dir) v

/-- Lines 55–68 of `main.ts`: create each missing output folder. -/
def ensureDirectoriesExist (v : Vault) : Vault :=
  ensureDirsFrom outputDirs v

def summaryPath (filename : Str) : Str :=
  "Parsed_Notes/summaries/".toList ++ filename ++ "_summary.md".toList

def notePath (title : Str) : Str :=
  "Parsed_Notes/notes/".toList ++ title ++ ".md".toList

def tasksPath : Str := "Parsed_Notes/tasks.md".toList

/-- `structuredData.tasks.map(task => ⟍- [ ] ${task}⟍)`: `.map` exists on
arrays only; calling it on `undefined`, `null` or any other value throws
a TypeError. -/
def jsMapToLines (tasksVal : JsValue) : Except JsError (List Str) :=
  match tasksVal with
  | some (.arr ts) => .ok (ts.map (fun task => checkboxMarker ++ jsToString (some task)))
  | _ => .error .typeError

/-- Lines 156–164 of `main.ts`: the task-writing step.  If the cumulative
task file exists, read it, append a newline plus the joined checkbox
lines, and overwrite it; otherwise create it with the joined lines. -/
def appendTasks (v : Vault) (tasksVal : JsValue) : Except JsError Vault :=
  if v.hasFile tasksPath then
    match jsMapToLines tasksVal with
    | .ok lines =>
      .ok (v.modifyFile tasksPath (v.readFile tasksPath ++ '\n' :: joinSep '\n' lines))
    | .error e => .error e
  else
    match jsMapToLines tasksVal with
    | .ok lines => v.createFile tasksPath (joinSep '\n' lines)
    | .error e => .error e

/-- Lines 152–154 of `main.ts`: create one note file per entry of
`structuredData.notes`, stopping at the first failure (writes performed
before the failure remain). -/
def writeNotes : List Json → Vault → Vault × Except JsError Unit
  | [], v => (v, .ok ())
  | note :: rest, v =>
    match jsGet note ("title".toList) with
    | .error e => (v, .error e)
    | .ok titleVal =>
      match jsGet note ("content".toList) with
      | .error e => (v, .error e)
      | .ok contentVal =>
        match v.createFile (notePath (jsToString titleVal)) (jsToString contentVal) with
        | .error e => (v, .error e)
        | .ok v2 => writeNotes rest v2

/-- Lines 148–164 of `main.ts`: persist the summary, the notes and the
tasks, in order, stopping at the first failure and keeping all writes
performed before it. -/
def outputArtifacts (filename : Str) (structuredData : Json) (v : Vault) :
    Vault × Except JsError Unit :=
  match jsGet structuredData ("summary".toList) with
  | .error e => (v, .error e)
  | .ok summaryVal =>
    match v.createFile (summaryPath filename) (jsToString summaryVal) with
    | .error e => (v, .error e)
    | .ok v1 =>
      match jsGet structuredData ("notes".toList) with
      | .error e => (v1, .error e)
      | .ok notesVal =>
        match jsIterate notesVal with
        | .error e => (v1, .error e)
        | .ok notes =>
          match writeNotes notes v1 with
          | (v2, .error e) => (v2, .error e)
          | (v2, .ok _) =>
            match jsGet structuredData ("tasks".toList) with
            | .error e => (v2, .error e)
            | .ok tasksVal =>
              match appendTasks v2 tasksVal with
              | .ok v3 => (v3, .ok ())
              | .error e => (v2, .error e)

/-- Lines 79–169 of `main.ts`: the pipeline entry point.  Ensures the
output directories exist, checks the API key (emitting its own Notice and
failing when unset), performs the completion call, extracts the
structured record, and writes the artifacts. -/
def parseAndOutput (settings : Settings) (filename content : Str)
    (fetch : FetchOutcome) (v : Vault) : RunResult :=
  let v := ensureDirectoriesExist v
  if settings.apiKey = [] then
    { vault := v, notices := [apiKeyNotice], networkCalled := false,
      result := .error .apiKeyNotSet }
  else
    match fetch with
    | .fetchFailed =>
      { vault := v, notices := [], networkCalled := true, result := .error .fetchFailed }
    | .httpError status errMessage =>
      { vault := v, notices := [], networkCalled := true,
        result := .error (.apiError status (errMessage.getD [])) }
    | .success messageContent =>
      match messageContent with
      | none =>
        { vault := v, notices := [], networkCalled := true, result := .error .noContent }
      | some mc =>
        if mc = [] then
          { vault := v, notices := [], networkCalled := true, result := .error .noContent }
        else
          match extractStep mc with
          | .error e =>
            { vault := v, notices := [], networkCalled := true, result := .error e }
          | .ok structuredData =>
            match outputArtifacts filename structuredData v with
            | (v2, res) =>
              { vault := v2, notices := [], networkCalled := true, result := res }

structure ActiveFile where
  basename : Str
  extension : Str
  content : Str

/-- Lines 23–41 of `main.ts`: the manual `Parse Transcript` command.  Its
try/catch shows exactly one success or failure Notice around the pipeline
(in addition to any Notice the pipeline itself emitted). -/
def manualParseCommand (settings : Settings) (activeFile : Option ActiveFile)
    (fetch : FetchOutcome) (v : Vault) : RunResult :=
  match activeFile with
  | some f =>
    if f.extension = "md".toList then
      let r := parseAndOutput settings f.basename f.content fetch v
      match r.result with
      | .ok _ => { r with notices := r.notices ++ [successNotice f.basename] }
      | .error _ => { r with notices := r.notices ++ [failureNotice] }
    else
      { vault := v, notices := [openMdNotice], networkCalled := false, result := .ok () }
  | none =>
    { vault := v, notices := [openMdNotice], networkCalled := false, result := .ok () }

structure CreatedFile where
  path : Str
  basename : Str
  content : Str

def watchFolderPath : Str := "transcripts".toList

/-- Lines 70–77 of `main.ts`: the vault `create`-event handler registered
by `watchFolder`.  It calls the same pipeline entry point, but without
any try/catch and without any Notice of its own: errors become unhandled
rejections. -/
def onFileCreated (settings : Settings) (file : CreatedFile)
    (fetch : FetchOutcome) (v : Vault) : RunResult :=
  if watchFolderPath.isPrefixOf file.path then
    parseAndOutput settings file.basename file.content fetch v
  else
    { vault := v, notices := [], networkCalled := false, result := .ok () }

/-! ## Helper lemmas: lines, checkbox counting -/

theorem splitNl_ne_nil (s : Str) : splitNl s ≠ [] := by
  induction s with
  | nil => simp [splitNl]
  | cons c t ih =>
    by_cases h : c = '\n'
    · subst h; simp [splitNl]
    · rw [show splitNl (c :: t) =
            (match splitNl t with
             | [] => [[c]]
             | h :: r => (c :: h) :: r) from by
          cases t <;> simp [splitNl, h]]
      cases splitNl t <;> simp

theorem splitNl_cons_of_ne (c : Char) (t : Str) (h : c ≠ '\n') :
    splitNl (c :: t) =
      match splitNl t with
      | [] => [[c]]
      | h :: r => (c :: h) :: r := by
  cases t <;> simp [splitNl, h]

theorem splitNl_append (a b : Str) :
    splitNl (a ++ '\n' :: b) = splitNl a ++ splitNl b := by
  induction a with
  | nil => simp [splitNl]
  | cons c t ih =>
    by_cases h : c = '\n'
    · subst h; simp [splitNl, ih]
    · rw [List.cons_append, splitNl_cons_of_ne c (t ++ '\n' :: b) h,
        splitNl_cons_of_ne c t h, ih]
      have hne := splitNl_ne_nil t
      cases hsp : splitNl t with
      | nil => exact absurd hsp hne
      | cons h0 r0 => simp

theorem splitNl_no_nl (s : Str) (h : '\n' ∉ s) : splitNl s = [s] := by
  induction s with
  | nil => simp [splitNl]
  | cons c t ih =>
    have hc : c ≠ '\n' := by
      intro hc; exact h (hc ▸ List.mem_cons_self c t)
    have ht : '\n' ∉ t := fun hm => h (List.mem_cons_of_mem c hm)
    rw [splitNl_cons_of_ne c t hc, ih ht]

theorem splitNl_joinSep (lines : List Str) (hne : lines ≠ [])
    (hnl : ∀ l ∈ lines, '\n' ∉ l) :
    splitNl (joinSep '\n' lines) = lines := by
  induction lines with
  | nil => exact absurd rfl hne
  | cons l ls ih =>
    cases ls with
    | nil =>
      simp only [joinSep]
      exact splitNl_no_nl l (hnl l (List.mem_cons_self l []))
    | cons l2 ls2 =>
      have : joinSep '\n' (l :: l2 :: ls2) = l ++ '\n' :: joinSep '\n' (l2 :: ls2) := rfl
      rw [this, splitNl_append, splitNl_no_nl l (hnl l (List.mem_cons_self l _)),
        ih (by simp) (fun x hx => hnl x (List.mem_cons_of_mem l hx))]
      rfl

theorem isCheckboxLine_marker (s : Str) :
    isCheckboxLine (checkboxMarker ++ s) = true := by
  unfold isCheckboxLine
  exact List.isPrefixOf_iff_prefix.mpr (List.prefix_append _ _)

theorem isCheckboxLine_nil : isCheckboxLine [] = false := by decide

theorem checkboxLines_append_tasks (old : Str) (lines : List Str)
    (hnl : ∀ l ∈ lines, '\n' ∉ l) (hcb : ∀ l ∈ lines, isCheckboxLine l = true) :
    checkboxLines (old ++ '\n' :: joinSep '\n' lines) = checkboxLines old ++ lines := by
  unfold checkboxLines
  rw [splitNl_append, List.filter_append]
  cases lines with
  | nil => simp [joinSep, splitNl, isCheckboxLine_nil]
  | cons l ls =>
    rw [splitNl_joinSep _ (by simp) hnl, List.filter_eq_self.mpr hcb]

theorem checkboxLines_joinSep (lines : List Str)
    (hnl : ∀ l ∈ lines, '\n' ∉ l) (hcb : ∀ l ∈ lines, isCheckboxLine l = true) :
    checkboxLines (joinSep '\n' lines) = lines := by
  unfold checkboxLines
  cases lines with
  | nil => simp [joinSep, splitNl, isCheckboxLine_nil]
  | cons l ls =>
    rw [splitNl_joinSep _ (by simp) hnl, List.filter_eq_self.mpr hcb]

/-! ## Helper lemmas: vault operations and the pipeline skeleton -/

theorem findMap_replace (fs : List (Str × Str)) (p c : Str)
    (h : fs.any (fun e => e.1 == p) = true) :
    ((fs.map (fun e => if e.1 == p then (e.1, c) else e)).find?
        (fun e => e.1 == p)).map Prod.snd = some c := by
  induction fs with
  | nil => simp at h
  | cons e t ih =>
    by_cases hk : (e.1 == p) = true
    · simp [hk, List.find?]
    · have h2 : t.any (fun e => e.1 == p) = true := by
        simp only [List.any_cons, hk, Bool.false_or] at h
        exact h
      have hkf : (e.1 == p) = false := by
        simpa using hk
      simp only [List.map_cons, hkf, if_false, Bool.false_eq_true]
      rw [List.find?_cons_of_neg _ (by simp [hkf])]
      exact ih h2

theorem readFile_modifyFile (v : Vault) (p c : Str) (h : v.hasFile p = true) :
    (v.modifyFile p c).readFile p = c := by
  unfold Vault.readFile Vault.modifyFile
  simp only
  rw [findMap_replace v.files p c h]
  rfl

theorem readFile_createFile (v : Vault) (p c : Str) (h : v.pathExists p = false) :
    ∃ v2, v.createFile p c = .ok v2 ∧ v2.readFile p = c ∧
      v2.files = v.files ++ [(p, c)] := by
  refine ⟨{ v with files := v.files ++ [(p, c)] }, ?_, ?_, rfl⟩
  · unfold Vault.createFile
    rw [h]
    rfl
  · unfold Vault.readFile
    simp only
    have hnof : v.files.find? (fun e => e.1 == p) = none := by
      rw [List.find?_eq_none]
      intro e he hbe
      have : v.hasFile p = true := by
        unfold Vault.hasFile
        exact List.any_eq_true.mpr ⟨e, he, hbe⟩
      unfold Vault.pathExists at h
      rw [this] at h
      simp at h
    rw [List.find?_append, hnof]
    simp [List.find?]

theorem ensureDirsFrom_files (dirs : List Str) (v : Vault) :
    (ensureDirsFrom dirs v).files = v.files := by
  induction dirs generalizing v with
  | nil => rfl
  | cons d ds ih =>
    unfold ensureDirsFrom
    rw [List.foldl_cons]
    by_cases h : v.pathExists d = true
    · rw [if_pos h]; exact ih v
    · rw [if_neg h]
      have := ih (v.createFolder d)
      unfold ensureDirsFrom at this
      rw [this]
      rfl

theorem ensureDirectoriesExist_files (v : Vault) :
    (ensureDirectoriesExist v).files = v.files :=
  ensureDirsFrom_files outputDirs v

theorem parseAndOutput_noNotices (settings : Settings) (fn ct : Str)
    (fetch : FetchOutcome) (v : Vault) (h : settings.apiKey ≠ []) :
    (parseAndOutput settings fn ct fetch v).notices = [] := by
  unfold parseAndOutput
  rw [if_neg h]
  repeat' split
  all_goals rfl

theorem jsToString_str (s : Str) : jsToString (some (.str s)) = s := rfl

theorem taskLines_of_strings (ss : List Str) :
    (ss.map Json.str).map (fun task => checkboxMarker ++ jsToString (some task)) =
      ss.map (fun s => checkboxMarker ++ s) := by
  rw [List.map_map]
  rfl

theorem no_nl_in_marker_line (s : Str) (h : '\n' ∉ s) :
    '\n' ∉ checkboxMarker ++ s := by
  intro hm
  rcases List.mem_append.mp hm with hm | hm
  · revert hm; decide
  · exact h hm

/-! ## Claims about the task-writing step (C1, C10) -/

/-- Claim C10 (confirmed): on every invocation where the cumulative
task-list document already exists, its new content equals the old content
followed by one newline and the joined checkbox lines; in particular,
with an empty task list the document is still modified and gains exactly
a trailing newline. -/
theorem C10_append_equation (v : Vault) (ts : List Json)
    (h : v.hasFile tasksPath = true) :
    ∃ v2, appendTasks v (some (.arr ts)) = .ok v2 ∧
      v2.readFile tasksPath =
        v.readFile tasksPath ++ '\n' ::
          joinSep '\n' (ts.map (fun task => checkboxMarker ++ jsToString (some task))) ∧
      (ts = [] → v2.readFile tasksPath = v.readFile tasksPath ++ ['\n']) := by
  refine ⟨_, ?_, readFile_modifyFile v _ _ h, ?_⟩
  · unfold appendTasks
    simp [h, jsMapToLines]
  · intro h0
    subst h0
    have := readFile_modifyFile v tasksPath
      (v.readFile tasksPath ++ '\n' ::
        joinSep '\n' (([] : List Json).map (fun task => checkboxMarker ++ jsToString (some task)))) h
    simpa [joinSep] using this

theorem C10_append_equation_witness :
    (Vault.hasFile ⟨[], [(tasksPath, "- [ ] a".toList)]⟩ tasksPath = true) ∧
    ∃ v2, appendTasks ⟨[], [(tasksPath, "- [ ] a".toList)]⟩ (some (.arr [])) = .ok v2 ∧
      v2.readFile tasksPath =
        Vault.readFile ⟨[], [(tasksPath, "- [ ] a".toList)]⟩ tasksPath ++ '\n' ::
          joinSep '\n' (([] : List Json).map (fun task => checkboxMarker ++ jsToString (some task))) ∧
      (([] : List Json) = [] →
        v2.readFile tasksPath =
          Vault.readFile ⟨[], [(tasksPath, "- [ ] a".toList)]⟩ tasksPath ++ ['\n']) :=
  ⟨rfl, C10_append_equation ⟨[], [(tasksPath, "- [ ] a".toList)]⟩ [] rfl⟩

/-- Claim C1 (counterexample): a task string containing an embedded
newline followed by a checkbox marker produces more than N+M checkbox
lines — the claim as stated fails for such task strings.  Here N = 1 and
M = 1 but the resulting document has 3 checkbox lines. -/
theorem C1_counterexample :
    appendTasks ⟨outputDirs, [(tasksPath, "- [ ] a".toList)]⟩
        (some (.arr [.str ("x\n- [ ] y".toList)])) =
      .ok ⟨outputDirs, [(tasksPath, "- [ ] a\n- [ ] x\n- [ ] y".toList)]⟩ ∧
    checkboxCount ("- [ ] a".toList) = 1 ∧
    checkboxCount ("- [ ] a\n- [ ] x\n- [ ] y".toList) = 3 ∧
    (3 : Nat) ≠ 1 + 1 := ⟨rfl, by decide, by decide, by decide⟩

/-- Claim C1 (amended): for task strings containing no newline character,
appending M tasks to an existing task-list document with N checkbox lines
yields exactly N+M checkbox lines, the first N unchanged and in order;
when nothing exists at the task-list path, a document with exactly the M
joined checkbox lines is created. -/
theorem C1_taskWriter (v : Vault) (ss : List Str) (hnl : ∀ s ∈ ss, '\n' ∉ s) :
    (v.hasFile tasksPath = true →
      ∃ v2, appendTasks v (some (.arr (ss.map Json.str))) = .ok v2 ∧
        checkboxLines (v2.readFile tasksPath) =
          checkboxLines (v.readFile tasksPath) ++ ss.map (fun s => checkboxMarker ++ s) ∧
        checkboxCount (v2.readFile tasksPath) =
          checkboxCount (v.readFile tasksPath) + ss.length) ∧
    (v.pathExists tasksPath = false →
      ∃ v2, appendTasks v (some (.arr (ss.map Json.str))) = .ok v2 ∧
        checkboxLines (v2.readFile tasksPath) = ss.map (fun s => checkboxMarker ++ s) ∧
        checkboxCount (v2.readFile tasksPath) = ss.length) := by
  have hlnl : ∀ l ∈ ss.map (fun s => checkboxMarker ++ s), '\n' ∉ l := by
    intro l hl
    rcases List.mem_map.mp hl with ⟨s, hs, rfl⟩
    exact no_nl_in_marker_line s (hnl s hs)
  have hlcb : ∀ l ∈ ss.map (fun s => checkboxMarker ++ s), isCheckboxLine l = true := by
    intro l hl
    rcases List.mem_map.mp hl with ⟨s, hs, rfl⟩
    exact isCheckboxLine_marker s
  constructor
  · intro h
    refine ⟨v.modifyFile tasksPath (v.readFile tasksPath ++ '\n' ::
        joinSep '\n' ((ss.map Json.str).map
          (fun task => checkboxMarker ++ jsToString (some task)))), ?_, ?_, ?_⟩
    · unfold appendTasks
      simp [h, jsMapToLines]
    · rw [readFile_modifyFile v _ _ h, taskLines_of_strings,
        checkboxLines_append_tasks _ _ hlnl hlcb]
    · rw [readFile_modifyFile v _ _ h, taskLines_of_strings]
      unfold checkboxCount
      rw [checkboxLines_append_tasks _ _ hlnl hlcb, List.length_append, List.length_map]
  · intro h
    have hnof : v.hasFile tasksPath = false := by
      unfold Vault.pathExists at h
      exact (Bool.or_eq_false_iff.mp h).2
    obtain ⟨v2, hcr, hread, _⟩ := readFile_createFile v tasksPath
      (joinSep '\n' ((ss.map Json.str).map
        (fun task => checkboxMarker ++ jsToString (some task)))) h
    refine ⟨v2, ?_, ?_, ?_⟩
    · unfold appendTasks
      simp only [hnof, Bool.false_eq_true, if_false, jsMapToLines]
      exact hcr
    · rw [hread, taskLines_of_strings, checkboxLines_joinSep _ hlnl hlcb]
    · rw [hread, taskLines_of_strings]
      unfold checkboxCount
      rw [checkboxLines_joinSep _ hlnl hlcb, List.length_map]

theorem C1_taskWriter_witness :
    (∀ s ∈ ["call dentist".toList], '\n' ∉ s) ∧
    ((Vault.hasFile ⟨[], [(tasksPath, "- [ ] a".toList)]⟩ tasksPath = true →
      ∃ v2, appendTasks ⟨[], [(tasksPath, "- [ ] a".toList)]⟩
          (some (.arr (["call dentist".toList].map Json.str))) = .ok v2 ∧
        checkboxLines (v2.readFile tasksPath) =
          checkboxLines (Vault.readFile ⟨[], [(tasksPath, "- [ ] a".toList)]⟩ tasksPath) ++
            ["call dentist".toList].map (fun s => checkboxMarker ++ s) ∧
        checkboxCount (v2.readFile tasksPath) =
          checkboxCount (Vault.readFile ⟨[], [(tasksPath, "- [ ] a".toList)]⟩ tasksPath) +
            ["call dentist".toList].length) ∧
    (Vault.pathExists ⟨[], [(tasksPath, "- [ ] a".toList)]⟩ tasksPath = false →
      ∃ v2, appendTasks ⟨[], [(tasksPath, "- [ ] a".toList)]⟩
          (some (.arr (["call dentist".toList].map Json.str))) = .ok v2 ∧
        checkboxLines (v2.readFile tasksPath) =
          ["call dentist".toList].map (fun s => checkboxMarker ++ s) ∧
        checkboxCount (v2.readFile tasksPath) = ["call dentist".toList].length)) :=
  ⟨by decide, C1_taskWriter ⟨[], [(tasksPath, "- [ ] a".toList)]⟩
    ["call dentist".toList] (by decide)⟩

/-! ## Claims about pipeline short-circuiting (C2, C9) -/

/-- Claim C2 (counterexample): when the output folders do not yet exist,
an invocation whose completion call fails still creates them — so a
document-store write (folder creation) does occur.  Starting from an
empty vault with the API key set and an HTTP 500 response, the vault ends
with the three output folders. -/
theorem C2_counterexample :
    (parseAndOutput ⟨"k".toList⟩ ("t".toList) ("c".toList) (.httpError 500 none)
        ⟨[], []⟩).vault.folders = outputDirs ∧
    (parseAndOutput ⟨"k".toList⟩ ("t".toList) ("c".toList) (.httpError 500 none)
        ⟨[], []⟩).result = .error (.apiError 500 []) ∧
    outputDirs ≠ [] := ⟨rfl, rfl, by decide⟩

/-- Claim C2 (amended): when the completion call fails, no document is
created, modified or appended — the invocation fails, and the only
possible document-store writes are the idempotent creations of the output
folders, which happen before the network call. -/
theorem C2_fetchFailure_no_file_writes (settings : Settings) (fn ct : Str) (v : Vault)
    (fetch : FetchOutcome) (hkey : settings.apiKey ≠ [])
    (hfail : fetch = .fetchFailed ∨ ∃ status msg, fetch = .httpError status msg) :
    (parseAndOutput settings fn ct fetch v).vault = ensureDirectoriesExist v ∧
    (parseAndOutput settings fn ct fetch v).vault.files = v.files ∧
    ∃ e, (parseAndOutput settings fn ct fetch v).result = .error e := by
  rcases hfail with h | ⟨status, msg, h⟩ <;> subst h
  · exact ⟨by simp [parseAndOutput, hkey],
      by simp [parseAndOutput, hkey, ensureDirectoriesExist_files],
      ⟨.fetchFailed, by simp [parseAndOutput, hkey]⟩⟩
  · exact ⟨by simp [parseAndOutput, hkey],
      by simp [parseAndOutput, hkey, ensureDirectoriesExist_files],
      ⟨.apiError status (msg.getD []), by simp [parseAndOutput, hkey]⟩⟩

theorem C2_fetchFailure_no_file_writes_witness :
    ((Settings.apiKey ⟨"k".toList⟩ ≠ []) ∧
      ((FetchOutcome.fetchFailed = FetchOutcome.fetchFailed ∨
        ∃ status msg, FetchOutcome.fetchFailed = FetchOutcome.httpError status msg))) ∧
    ((parseAndOutput ⟨"k".toList⟩ ("t".toList) ("c".toList) .fetchFailed
        ⟨[], []⟩).vault = ensureDirectoriesExist ⟨[], []⟩ ∧
      (parseAndOutput ⟨"k".toList⟩ ("t".toList) ("c".toList) .fetchFailed
        ⟨[], []⟩).vault.files = Vault.files ⟨[], []⟩ ∧
      ∃ e, (parseAndOutput ⟨"k".toList⟩ ("t".toList) ("c".toList) .fetchFailed
        ⟨[], []⟩).result = .error e) :=
  ⟨⟨by decide, Or.inl rfl⟩,
    C2_fetchFailure_no_file_writes ⟨"k".toList⟩ ("t".toList) ("c".toList) ⟨[], []⟩
      .fetchFailed (by decide) (Or.inl rfl)⟩

/-- Claim C9 (confirmed): with an absent or empty API key, every
invocation fails immediately with the configuration error, before any
network call, emitting the configuration Notice. -/
theorem C9_missingKey (settings : Settings) (fn ct : Str) (fetch : FetchOutcome)
    (v : Vault) (h : settings.apiKey = []) :
    (parseAndOutput settings fn ct fetch v).result = .error .apiKeyNotSet ∧
    (parseAndOutput settings fn ct fetch v).networkCalled = false ∧
    (parseAndOutput settings fn ct fetch v).notices = [apiKeyNotice] := by
  refine ⟨?_, ?_, ?_⟩ <;> simp [parseAndOutput, h]

/-! ## Helper lemmas: the fence regex and trimming -/

theorem tbt_prefix_shape (l : Str) (h : tbt.isPrefixOf l = true) :
    ∃ r, l = backtick :: backtick :: backtick :: r := by
  obtain ⟨r, hr⟩ := List.isPrefixOf_iff_prefix.mp h
  exact ⟨r, hr.symm⟩

theorem tbt_isPrefixOf_append (X : Str) : tbt.isPrefixOf (tbt ++ X) = true :=
  List.isPrefixOf_iff_prefix.mpr (List.prefix_append tbt X)

theorem tbt_not_prefixOf_cons (c : Char) (t : Str) (hc : c ≠ backtick) :
    tbt.isPrefixOf (c :: t) = false := by
  cases hb : tbt.isPrefixOf (c :: t) with
  | false => rfl
  | true =>
    obtain ⟨r, hr⟩ := tbt_prefix_shape _ hb
    exact absurd (List.cons_eq_cons.mp hr).1 hc

theorem splitAtTriple_cons_neg (c : Char) (t : Str)
    (h : tbt.isPrefixOf (c :: t) = false) :
    splitAtTriple (c :: t) = (splitAtTriple t).map (fun p => (c :: p.1, p.2)) := by
  rw [splitAtTriple]
  simp only [h, Bool.false_eq_true, if_false]
  cases splitAtTriple t <;> rfl

theorem splitAtTriple_cons_none (c : Char) (t : Str)
    (h : splitAtTriple (c :: t) = none) :
    tbt.isPrefixOf (c :: t) = false ∧ splitAtTriple t = none := by
  cases hp : tbt.isPrefixOf (c :: t) with
  | true =>
    rw [splitAtTriple, hp] at h
    simp at h
  | false =>
    rw [splitAtTriple_cons_neg c t hp] at h
    exact ⟨rfl, Option.map_eq_none'.mp h⟩

theorem splitAtTriple_append (a b : Str) (ha : splitAtTriple a = none)
    (hb : b.head? ≠ some backtick) :
    splitAtTriple (a ++ b) = (splitAtTriple b).map (fun p => (a ++ p.1, p.2)) := by
  induction a with
  | nil =>
    simp only [List.nil_append]
    cases splitAtTriple b <;> simp
  | cons c t ih =>
    obtain ⟨hp, ht⟩ := splitAtTriple_cons_none c t ha
    have hp2 : tbt.isPrefixOf (c :: (t ++ b)) = false := by
      cases hb2 : tbt.isPrefixOf (c :: (t ++ b)) with
      | false => rfl
      | true =>
        obtain ⟨r, hr⟩ := tbt_prefix_shape _ hb2
        obtain ⟨hc, htb⟩ := List.cons_eq_cons.mp hr
        cases t with
        | nil =>
          have hb3 : b = backtick :: backtick :: r := htb
          exact absurd (show b.head? = some backtick from by rw [hb3]; rfl) hb
        | cons x t2 =>
          obtain ⟨hx, ht2b⟩ := List.cons_eq_cons.mp htb
          cases t2 with
          | nil =>
            have hb3 : b = backtick :: r := ht2b
            exact absurd (show b.head? = some backtick from by rw [hb3]; rfl) hb
          | cons y t3 =>
            obtain ⟨hy, _⟩ := List.cons_eq_cons.mp ht2b
            subst hc hx hy
            have htrue := tbt_isPrefixOf_append t3
            rw [show tbt ++ t3 = backtick :: backtick :: backtick :: t3 from rfl] at htrue
            rw [htrue] at hp
            exact Bool.noConfusion hp
    rw [List.cons_append, splitAtTriple_cons_neg _ _ hp2, ih ht]
    cases splitAtTriple b <;> simp

theorem splitAtTriple_tbt_append (post : Str) :
    splitAtTriple (tbt ++ post) = some ([], post) := by
  show splitAtTriple (backtick :: backtick :: backtick :: post) = some ([], post)
  rw [splitAtTriple, show tbt.isPrefixOf (backtick :: backtick :: backtick :: post) = true from
    tbt_isPrefixOf_append post]
  rfl

theorem splitAtTriple_close (post : Str) :
    splitAtTriple ('\n' :: (tbt ++ post)) = some (['\n'], post) := by
  rw [splitAtTriple_cons_neg _ _ (tbt_not_prefixOf_cons '\n' _ (by decide)),
    splitAtTriple_tbt_append]
  rfl

theorem splitAtTriple_dropWhile_none (p : Char → Bool) (s : Str)
    (h : splitAtTriple s = none) : splitAtTriple (s.dropWhile p) = none := by
  induction s with
  | nil => simpa using h
  | cons c t ih =>
    obtain ⟨_, ht⟩ := splitAtTriple_cons_none c t h
    rw [List.dropWhile_cons]
    by_cases hp : p c = true
    · rw [if_pos hp]
      exact ih ht
    · rw [if_neg hp]
      exact h

theorem regexFenceCapture_skip (pre rest : Str) (hpre : backtick ∉ pre) :
    regexFenceCapture (pre ++ rest) = regexFenceCapture rest := by
  induction pre with
  | nil => rfl
  | cons c t ih =>
    have hc : c ≠ backtick := fun h => hpre (h ▸ List.mem_cons_self c t)
    have ht : backtick ∉ t := fun h => hpre (List.mem_cons_of_mem c h)
    rw [List.cons_append, regexFenceCapture,
      tbt_not_prefixOf_cons c (t ++ rest) hc]
    simp only [Bool.false_eq_true, if_false]
    exact ih ht

theorem regexFenceCapture_none (s : Str) (h : splitAtTriple s = none) :
    regexFenceCapture s = none := by
  induction s with
  | nil => rfl
  | cons c t ih =>
    obtain ⟨hp, ht⟩ := splitAtTriple_cons_none c t h
    rw [regexFenceCapture, hp]
    simp only [Bool.false_eq_true, if_false]
    exact ih ht

theorem regexFenceCapture_at_fence (X cap : Str) (h : fenceInner X = some cap) :
    regexFenceCapture (tbt ++ X) = some cap := by
  show regexFenceCapture (backtick :: backtick :: backtick :: X) = some cap
  rw [regexFenceCapture, show tbt.isPrefixOf (backtick :: backtick :: backtick :: X) = true from
    tbt_isPrefixOf_append X]
  simp only [if_true, List.drop_succ_cons, List.drop_zero]
  rw [h]

theorem dropWhile_idem (p : Char → Bool) (s : Str) :
    (s.dropWhile p).dropWhile p = s.dropWhile p := by
  induction s with
  | nil => rfl
  | cons c t ih =>
    rw [List.dropWhile_cons]
    by_cases hp : p c = true
    · rw [if_pos hp]; exact ih
    · rw [if_neg hp, List.dropWhile_cons, if_neg hp]

theorem trim_dropWhile (s : Str) : trim (s.dropWhile isJsWs) = trim s := by
  unfold trim
  rw [dropWhile_idem]

theorem trim_of_dropWhile_nil (s : Str) (h : s.dropWhile isJsWs = []) :
    trim s = [] := by
  unfold trim
  rw [h]
  rfl

theorem trim_append_ws (a : Str) (c : Char) (hc : isJsWs c = true) :
    trim (a ++ [c]) = trim a := by
  unfold trim
  rw [List.dropWhile_append]
  by_cases h : (a.dropWhile isJsWs).isEmpty = true
  · rw [if_pos h]
    rw [List.isEmpty_iff] at h
    rw [h]
    simp [List.dropWhile, hc]
  · rw [if_neg h]
    rw [List.reverse_append]
    simp only [List.reverse_cons, List.reverse_nil, List.nil_append, List.singleton_append]
    rw [List.dropWhile_cons, if_pos hc]

theorem trim_eq_self (s : Str)
    (h1 : ∀ c, s.head? = some c → isJsWs c = false)
    (h2 : ∀ c, s.getLast? = some c → isJsWs c = false) :
    trim s = s := by
  unfold trim
  have hfront : s.dropWhile isJsWs = s := by
    cases s with
    | nil => rfl
    | cons c t =>
      rw [List.dropWhile_cons, if_neg (by rw [h1 c rfl]; simp)]
  rw [hfront]
  cases hr : s.reverse with
  | nil =>
    have : s = [] := by simpa using congrArg List.reverse hr
    simp [this]
  | cons d r =>
    have hd : s.getLast? = some d := by
      rw [← List.head?_reverse, hr]
      rfl
    have hnw : isJsWs d = false := h2 d hd
    rw [List.dropWhile_cons]
    rw [if_neg (by simp [hnw])]
    rw [← hr]
    exact List.reverse_reverse s

theorem fenceInner_wrap (inner post : Str) (hin : splitAtTriple inner = none) :
    ∃ cap, fenceInner ("json\n".toList ++ (inner ++ ('\n' :: (tbt ++ post)))) = some cap ∧
      trim cap = trim inner := by
  unfold fenceInner
  have hjs : ("json".toList).isPrefixOf
      ("json\n".toList ++ (inner ++ ('\n' :: (tbt ++ post)))) = true := by
    rw [show ("json\n".toList ++ (inner ++ ('\n' :: (tbt ++ post)))) =
      "json".toList ++ ('\n' :: (inner ++ ('\n' :: (tbt ++ post)))) from rfl]
    exact List.isPrefixOf_iff_prefix.mpr (List.prefix_append _ _)
  rw [hjs]
  simp only [if_true]
  rw [show ("json\n".toList ++ (inner ++ ('\n' :: (tbt ++ post)))).drop 4 =
    '\n' :: (inner ++ ('\n' :: (tbt ++ post))) from rfl]
  rw [List.dropWhile_cons, if_pos (by decide), List.dropWhile_append]
  by_cases hie : (inner.dropWhile isJsWs).isEmpty = true
  · rw [if_pos hie]
    rw [List.dropWhile_cons, if_pos (by decide),
      show (tbt ++ post).dropWhile isJsWs = tbt ++ post from by
        show ((backtick :: backtick :: backtick :: post).dropWhile isJsWs) = _
        rw [List.dropWhile_cons, if_neg (by decide)]
        rfl,
      splitAtTriple_tbt_append]
    refine ⟨[], rfl, ?_⟩
    rw [List.isEmpty_iff] at hie
    rw [trim_of_dropWhile_nil inner hie]
    rfl
  · rw [if_neg hie]
    have hin2 : splitAtTriple (inner.dropWhile isJsWs) = none :=
      splitAtTriple_dropWhile_none isJsWs inner hin
    rw [splitAtTriple_append _ _ hin2 (by simp; decide), splitAtTriple_close]
    refine ⟨inner.dropWhile isJsWs ++ ['\n'], rfl, ?_⟩
    rw [trim_append_ws _ '\n' (by decide), trim_dropWhile]

theorem cleanContent_wrapped (pre inner post : Str) (hpre : backtick ∉ pre)
    (hin : splitAtTriple inner = none) :
    cleanContent (pre ++ wrapFence inner ++ post) = trim inner := by
  obtain ⟨cap, hcap, htrim⟩ := fenceInner_wrap inner post hin
  unfold cleanContent
  rw [show pre ++ wrapFence inner ++ post =
    pre ++ (tbt ++ ("json\n".toList ++ (inner ++ ('\n' :: (tbt ++ post))))) from by
      unfold wrapFence
      simp [List.append_assoc, List.cons_append]]
  rw [regexFenceCapture_skip _ _ hpre, regexFenceCapture_at_fence _ _ hcap]
  exact htrim

theorem cleanContent_nofence (s : Str) (h : splitAtTriple s = none) :
    cleanContent s = s := by
  unfold cleanContent
  rw [regexFenceCapture_none s h]

/-! ## Round-trip of `JSON.parse` over serialized extractions -/

theorem skipWs_cons_nonws (c : Char) (l : Str) (h : isJsonWs c = false) :
    skipWs (c :: l) = c :: l := by
  unfold skipWs
  rw [List.dropWhile_cons]
  simp [h]

theorem hexVal_hexDigitChar (n : Nat) (h : n < 16) :
    hexVal (hexDigitChar n) = some n := by
  interval_cases n <;> decide

theorem parseStrB_escBody (s : Str) : ∀ f rest,
    parseStrB (f + (s.length + 1)) (escBody s ++ '"' :: rest) = some (s, rest) := by
  induction s with
  | nil =>
    intro f rest
    show parseStrB (f + (0 + 1)) ('"' :: rest) = some ([], rest)
    simp [parseStrB]
  | cons c t ih =>
    intro f rest
    have hfu : f + ((c :: t).length + 1) = (f + (t.length + 1)) + 1 := by
      simp [List.length_cons]
      omega
    obtain ⟨F, hF⟩ : ∃ F, f + (t.length + 1) = F := ⟨_, rfl⟩
    have ih2 : parseStrB F (escBody t ++ '"' :: rest) = some (t, rest) := hF ▸ ih f rest
    rw [hfu, hF, show escBody (c :: t) = escAux c ++ escBody t from rfl]
    by_cases h1 : c = '"'
    · subst h1
      simp [escAux, parseStrB, escDecode, ih2]
    by_cases h2 : c = '\\'
    · subst h2
      simp [escAux, parseStrB, escDecode, ih2]
    by_cases h3 : c = Char.ofNat 8
    · subst h3
      simp [escAux, parseStrB, escDecode, ih2]
    by_cases h4 : c = Char.ofNat 12
    · subst h4
      simp [escAux, parseStrB, escDecode, ih2]
    by_cases h5 : c = '\n'
    · subst h5
      simp [escAux, parseStrB, escDecode, ih2]
    by_cases h6 : c = '\r'
    · subst h6
      simp [escAux, parseStrB, escDecode, ih2]
    by_cases h7 : c = '\t'
    · subst h7
      simp [escAux, parseStrB, escDecode, ih2]
    by_cases h8 : c.toNat < 32
    · have he : escAux c =
          ['\\', 'u', '0', '0', hexDigitChar (c.toNat / 16), hexDigitChar (c.toNat % 16)] := by
        unfold escAux
        rw [if_neg h1, if_neg h2, if_neg h3, if_neg h4, if_neg h5, if_neg h6, if_neg h7,
          if_pos h8]
      rw [he]
      have hd1 := hexVal_hexDigitChar (c.toNat / 16) (by omega)
      have hd2 := hexVal_hexDigitChar (c.toNat % 16) (by omega)
      have h0 : hexVal '0' = some 0 := rfl
      simp [parseStrB, hd1, hd2, h0, ih2]
      rw [show c.toNat / 16 * 16 + c.toNat % 16 = c.toNat from by omega]
      exact Char.ofNat_toNat c
    · have he : escAux c = [c] := by
        unfold escAux
        rw [if_neg h1, if_neg h2, if_neg h3, if_neg h4, if_neg h5, if_neg h6, if_neg h7,
          if_neg h8]
      rw [he]
      simp only [List.cons_append, List.nil_append]
      simp [parseStrB, h1, h2, h8, ih2]

set_option maxHeartbeats 1000000 in
theorem parseFuel_value_str (s : Str) : ∀ f rest,
    parseFuel (f + costStr s) .value (quoteStr s ++ rest) = some (.str s, rest) := by
  intro f rest
  obtain ⟨F, hF⟩ : ∃ F, f + (s.length + 1) = F := ⟨_, rfl⟩
  have hstr : parseStrB F (escBody s ++ '"' :: rest) = some (s, rest) :=
    hF ▸ parseStrB_escBody s f rest
  rw [show f + costStr s = (f + (s.length + 1)) + 1 from by unfold costStr; omega, hF]
  rw [show quoteStr s ++ rest = '"' :: (escBody s ++ '"' :: rest) from by
    unfold quoteStr
    simp [List.append_assoc]]
  simp [parseFuel, skipWs_cons_nonws, isJsonWs, hstr]

theorem parseFuel_members_last (k : Str) (v : Json) (cv : Nat) (V : Str → Str)
    (hv : ∀ f rest, parseFuel (f + cv) .value (V rest) = some (v, rest)) :
    ∀ f rest, parseFuel (f + lastMemberCost k cv) .members
      (quoteStr k ++ ':' :: V ('}' :: rest)) = some (.obj [(k, v)], rest) := by
  intro f rest
  obtain ⟨F, hF⟩ : ∃ F, f + keyCost k + cv = F := ⟨_, rfl⟩
  have hkey : parseStrB F (escBody k ++ '"' :: (':' :: V ('}' :: rest))) =
      some (k, ':' :: V ('}' :: rest)) := by
    rw [show F = (f + cv) + (k.length + 1) from by subst hF; unfold keyCost; omega]
    exact parseStrB_escBody k (f + cv) _
  have hval : parseFuel F .value (V ('}' :: rest)) = some (v, '}' :: rest) := by
    rw [show F = (f + keyCost k) + cv from by subst hF; omega]
    exact hv (f + keyCost k) _
  rw [show f + lastMemberCost k cv = F + 1 from by
    subst hF; unfold lastMemberCost; omega]
  rw [show quoteStr k ++ ':' :: V ('}' :: rest) =
      '"' :: (escBody k ++ '"' :: (':' :: V ('}' :: rest))) from by
    unfold quoteStr
    simp [List.append_assoc]]
  simp [parseFuel, skipWs_cons_nonws, isJsonWs, hkey, hval]

theorem parseFuel_members_cons (k : Str) (v : Json) (cv : Nat) (V : Str → Str)
    (ms : List (Str × Json)) (crest : Nat) (M : Str → Str)
    (hv : ∀ f rest, parseFuel (f + cv) .value (V rest) = some (v, rest))
    (hm : ∀ f rest, parseFuel (f + crest) .members (M rest) = some (.obj ms, rest)) :
    ∀ f rest, parseFuel (f + consMemberCost k cv crest) .members
      (quoteStr k ++ ':' :: V (',' :: M rest)) = some (.obj ((k, v) :: ms), rest) := by
  intro f rest
  obtain ⟨F, hF⟩ : ∃ F, f + keyCost k + cv + crest = F := ⟨_, rfl⟩
  have hkey : parseStrB F (escBody k ++ '"' :: (':' :: V (',' :: M rest))) =
      some (k, ':' :: V (',' :: M rest)) := by
    rw [show F = (f + cv + crest) + (k.length + 1) from by subst hF; unfold keyCost; omega]
    exact parseStrB_escBody k (f + cv + crest) _
  have hval : parseFuel F .value (V (',' :: M rest)) = some (v, ',' :: M rest) := by
    rw [show F = (f + keyCost k + crest) + cv from by subst hF; omega]
    exact hv (f + keyCost k + crest) _
  have hrest : parseFuel F .members (M rest) = some (.obj ms, rest) := by
    rw [show F = (f + keyCost k + cv) + crest from by subst hF; omega]
    exact hm (f + keyCost k + cv) _
  rw [show f + consMemberCost k cv crest = F + 1 from by
    subst hF; unfold consMemberCost; omega]
  rw [show quoteStr k ++ ':' :: V (',' :: M rest) =
      '"' :: (escBody k ++ '"' :: (':' :: V (',' :: M rest))) from by
    unfold quoteStr
    simp [List.append_assoc]]
  simp [parseFuel, skipWs_cons_nonws, isJsonWs, hkey, hval, hrest]

theorem parseFuel_value_obj (ms : List (Str × Json)) (cm : Nat) (M : Str → Str)
    (hm : ∀ f rest, parseFuel (f + cm) .members (M rest) = some (.obj ms, rest))
    (hhead : ∀ rest, ∃ c0 t0, M rest = c0 :: t0 ∧ isJsonWs c0 = false ∧ c0 ≠ '}') :
    ∀ f rest, parseFuel (f + (cm + 1)) .value ('{' :: M rest) =
      some (.obj (jsNormalize ms), rest) := by
  intro f rest
  obtain ⟨c0, t0, hM, hws, hne⟩ := hhead rest
  obtain ⟨F, hF⟩ : ∃ F, f + cm = F := ⟨_, rfl⟩
  have hm2 : parseFuel F .members (M rest) = some (.obj ms, rest) := hF ▸ hm f rest
  rw [hM] at hm2
  have hskip : skipWs (c0 :: t0) = c0 :: t0 := skipWs_cons_nonws c0 t0 hws
  rw [show f + (cm + 1) = F + 1 from by subst hF; omega, hM]
  simp [parseFuel, skipWs_cons_nonws, isJsonWs, hskip, hne, hm2]

theorem parseFuel_value_arr_nil : ∀ f rest,
    parseFuel (f + 1) .value ('[' :: ']' :: rest) = some (.arr [], rest) := by
  intro f rest
  simp [parseFuel, skipWs_cons_nonws, isJsonWs]

theorem parseFuel_elems_last (v : Json) (cv : Nat) (V : Str → Str)
    (hv : ∀ f rest, parseFuel (f + cv) .value (V rest) = some (v, rest)) :
    ∀ f rest, parseFuel (f + lastElemCost cv) .elems (V (']' :: rest)) =
      some (.arr [v], rest) := by
  intro f rest
  obtain ⟨F, hF⟩ : ∃ F, f + cv = F := ⟨_, rfl⟩
  have hval : parseFuel F .value (V (']' :: rest)) = some (v, ']' :: rest) := hF ▸ hv f _
  rw [show f + lastElemCost cv = F + 1 from by subst hF; unfold lastElemCost; omega]
  simp [parseFuel, skipWs_cons_nonws, isJsonWs, hval]

theorem parseFuel_elems_cons (v : Json) (cv : Nat) (V : Str → Str)
    (es : List Json) (crest : Nat) (E : Str → Str)
    (hv : ∀ f rest, parseFuel (f + cv) .value (V rest) = some (v, rest))
    (he : ∀ f rest, parseFuel (f + crest) .elems (E rest) = some (.arr es, rest)) :
    ∀ f rest, parseFuel (f + consElemCost cv crest) .elems (V (',' :: E rest)) =
      some (.arr (v :: es), rest) := by
  intro f rest
  obtain ⟨F, hF⟩ : ∃ F, f + cv + crest = F := ⟨_, rfl⟩
  have hval : parseFuel F .value (V (',' :: E rest)) = some (v, ',' :: E rest) := by
    rw [show F = (f + crest) + cv from by subst hF; omega]
    exact hv (f + crest) _
  have hrest : parseFuel F .elems (E rest) = some (.arr es, rest) := by
    rw [show F = (f + cv) + crest from by subst hF; omega]
    exact he (f + cv) _
  rw [show f + consElemCost cv crest = F + 1 from by
    subst hF; unfold consElemCost; omega]
  simp [parseFuel, skipWs_cons_nonws, isJsonWs, hval, hrest]

theorem parseFuel_value_arr (es : List Json) (ce : Nat) (E : Str → Str)
    (he : ∀ f rest, parseFuel (f + ce) .elems (E rest) = some (.arr es, rest))
    (hhead : ∀ rest, ∃ c0 t0, E rest = c0 :: t0 ∧ isJsonWs c0 = false ∧ c0 ≠ ']') :
    ∀ f rest, parseFuel (f + (ce + 1)) .value ('[' :: E rest) = some (.arr es, rest) := by
  intro f rest
  obtain ⟨c0, t0, hE, hws, hne⟩ := hhead rest
  obtain ⟨F, hF⟩ : ∃ F, f + ce = F := ⟨_, rfl⟩
  have he2 : parseFuel F .elems (E rest) = some (.arr es, rest) := hF ▸ he f rest
  rw [hE] at he2
  have hskip : skipWs (c0 :: t0) = c0 :: t0 := skipWs_cons_nonws c0 t0 hws
  rw [show f + (ce + 1) = F + 1 from by subst hF; omega, hE]
  simp [parseFuel, skipWs_cons_nonws, isJsonWs, hskip, hne, he2]

theorem parseFuel_tasksElems (ts : List Str) (hne : ts ≠ []) :
    ∀ f rest, parseFuel (f + costTasksElems ts) .elems
      (stringifyTasks ts ++ (']' :: rest)) = some (.arr (ts.map Json.str), rest) := by
  induction ts with
  | nil => exact absurd rfl hne
  | cons t ts2 ih =>
    cases ts2 with
    | nil =>
      intro f rest
      have h2 := parseFuel_elems_last (.str t) (costStr t) (fun r => quoteStr t ++ r)
        (parseFuel_value_str t) f rest
      simpa [stringifyTasks, joinSep, costTasksElems] using h2
    | cons t2 ts3 =>
      intro f rest
      have h2 := parseFuel_elems_cons (.str t) (costStr t) (fun r => quoteStr t ++ r)
        ((t2 :: ts3).map Json.str) (costTasksElems (t2 :: ts3))
        (fun r => stringifyTasks (t2 :: ts3) ++ (']' :: r))
        (parseFuel_value_str t) (fun f r => ih (by simp) f r) f rest
      simpa [stringifyTasks, joinSep, costTasksElems, List.append_assoc] using h2

theorem parseFuel_noteValue (n : Note) : ∀ f rest,
    parseFuel (f + costNote n) .value (stringifyNote n ++ rest) =
      some (noteJson n, rest) := by
  have hlast := parseFuel_members_last ("content".toList) (.str n.content)
    (costStr n.content) (fun r => quoteStr n.content ++ r) (parseFuel_value_str n.content)
  have hcons := parseFuel_members_cons ("title".toList) (.str n.title) (costStr n.title)
    (fun r => quoteStr n.title ++ r) [("content".toList, .str n.content)]
    (lastMemberCost ("content".toList) (costStr n.content))
    (fun r => quoteStr ("content".toList) ++ ':' :: (quoteStr n.content ++ ('}' :: r)))
    (parseFuel_value_str n.title) hlast
  have hobj := parseFuel_value_obj
    [(("title".toList : Str), Json.str n.title), (("content".toList : Str), Json.str n.content)]
    (consMemberCost ("title".toList) (costStr n.title)
      (lastMemberCost ("content".toList) (costStr n.content)))
    (fun r => quoteStr ("title".toList) ++ ':' :: (quoteStr n.title ++ (',' ::
      (quoteStr ("content".toList) ++ ':' :: (quoteStr n.content ++ ('}' :: r))))))
    hcons (fun rest => ⟨'"', _, rfl, by decide, by decide⟩)
  intro f rest
  have h2 := hobj f rest
  have hnorm : jsNormalize
      [(("title".toList : Str), Json.str n.title), (("content".toList : Str), Json.str n.content)] =
      [(("title".toList : Str), Json.str n.title), (("content".toList : Str), Json.str n.content)] := by
    simp [jsNormalize, objInsert,
      (by decide : (("title".toList : Str) == ("content".toList : Str)) = false)]
  have hshape : stringifyNote n ++ rest =
      '{' :: (quoteStr ("title".toList) ++ ':' :: (quoteStr n.title ++ (',' ::
        (quoteStr ("content".toList) ++ ':' :: (quoteStr n.content ++ ('}' :: rest)))))) := by
    simp [stringifyNote, List.append_assoc]
  rw [hshape]
  simpa [costNote, hnorm, noteJson] using h2

theorem parseFuel_notesElems (ns : List Note) (hne : ns ≠ []) :
    ∀ f rest, parseFuel (f + costNotesElems ns) .elems
      (stringifyNotes ns ++ (']' :: rest)) = some (.arr (ns.map noteJson), rest) := by
  induction ns with
  | nil => exact absurd rfl hne
  | cons n ns2 ih =>
    cases ns2 with
    | nil =>
      intro f rest
      have h2 := parseFuel_elems_last (noteJson n) (costNote n)
        (fun r => stringifyNote n ++ r) (parseFuel_noteValue n) f rest
      simpa [stringifyNotes, joinSep, costNotesElems] using h2
    | cons n2 ns3 =>
      intro f rest
      have h2 := parseFuel_elems_cons (noteJson n) (costNote n)
        (fun r => stringifyNote n ++ r) ((n2 :: ns3).map noteJson)
        (costNotesElems (n2 :: ns3)) (fun r => stringifyNotes (n2 :: ns3) ++ (']' :: r))
        (parseFuel_noteValue n) (fun f r => ih (by simp) f r) f rest
      simpa [stringifyNotes, joinSep, costNotesElems, List.append_assoc] using h2

theorem parseFuel_tasksValue (ts : List Str) : ∀ f rest,
    parseFuel (f + costTasksValue ts) .value
      ('[' :: (stringifyTasks ts ++ (']' :: rest))) =
      some (.arr (ts.map Json.str), rest) := by
  cases ts with
  | nil =>
    intro f rest
    simpa [stringifyTasks, joinSep, costTasksValue] using parseFuel_value_arr_nil f rest
  | cons t ts2 =>
    have hhead : ∀ r, ∃ c0 t0,
        (stringifyTasks (t :: ts2) ++ (']' :: r)) = c0 :: t0 ∧
        isJsonWs c0 = false ∧ c0 ≠ ']' := by
      intro r
      cases ts2 <;> exact ⟨'"', _, rfl, by decide, by decide⟩
    intro f rest
    have h2 := parseFuel_value_arr ((t :: ts2).map Json.str) (costTasksElems (t :: ts2))
      (fun r => stringifyTasks (t :: ts2) ++ (']' :: r))
      (fun f r => parseFuel_tasksElems (t :: ts2) (by simp) f r) hhead f rest
    simpa [costTasksValue] using h2

theorem parseFuel_notesValue (ns : List Note) : ∀ f rest,
    parseFuel (f + costNotesValue ns) .value
      ('[' :: (stringifyNotes ns ++ (']' :: rest))) =
      some (.arr (ns.map noteJson), rest) := by
  cases ns with
  | nil =>
    intro f rest
    simpa [stringifyNotes, joinSep, costNotesValue] using parseFuel_value_arr_nil f rest
  | cons n ns2 =>
    have hhead : ∀ r, ∃ c0 t0,
        (stringifyNotes (n :: ns2) ++ (']' :: r)) = c0 :: t0 ∧
        isJsonWs c0 = false ∧ c0 ≠ ']' := by
      intro r
      cases ns2 <;> exact ⟨'{', _, rfl, by decide, by decide⟩
    intro f rest
    have h2 := parseFuel_value_arr ((n :: ns2).map noteJson) (costNotesElems (n :: ns2))
      (fun r => stringifyNotes (n :: ns2) ++ (']' :: r))
      (fun f r => parseFuel_notesElems (n :: ns2) (by simp) f r) hhead f rest
    simpa [costNotesValue] using h2

theorem parseFuel_valueSE (V : StructuredExtraction) : ∀ f rest,
    parseFuel (f + costSE V) .value (stringifySE V ++ rest) =
      some (jsonOfSE V, rest) := by
  have htasksM := parseFuel_members_last ("tasks".toList) (.arr (V.tasks.map Json.str))
    (costTasksValue V.tasks) (fun r => '[' :: (stringifyTasks V.tasks ++ (']' :: r)))
    (parseFuel_tasksValue V.tasks)
  have hnotesM := parseFuel_members_cons ("notes".toList) (.arr (V.notes.map noteJson))
    (costNotesValue V.notes) (fun r => '[' :: (stringifyNotes V.notes ++ (']' :: r)))
    [(("tasks".toList : Str), Json.arr (V.tasks.map Json.str))]
    (lastMemberCost ("tasks".toList) (costTasksValue V.tasks))
    (fun r => quoteStr ("tasks".toList) ++ ':' ::
      ('[' :: (stringifyTasks V.tasks ++ (']' :: ('}' :: r)))))
    (parseFuel_notesValue V.notes) htasksM
  have hsummaryM := parseFuel_members_cons ("summary".toList) (.str V.summary)
    (costStr V.summary) (fun r => quoteStr V.summary ++ r)
    [(("notes".toList : Str), Json.arr (V.notes.map noteJson)),
      (("tasks".toList : Str), Json.arr (V.tasks.map Json.str))]
    (consMemberCost ("notes".toList) (costNotesValue V.notes)
      (lastMemberCost ("tasks".toList) (costTasksValue V.tasks)))
    (fun r => quoteStr ("notes".toList) ++ ':' ::
      ('[' :: (stringifyNotes V.notes ++ (']' :: (',' ::
        (quoteStr ("tasks".toList) ++ ':' ::
          ('[' :: (stringifyTasks V.tasks ++ (']' :: ('}' :: r))))))))))
    (parseFuel_value_str V.summary) hnotesM
  have hobj := parseFuel_value_obj
    [(("summary".toList : Str), Json.str V.summary),
      (("notes".toList : Str), Json.arr (V.notes.map noteJson)),
      (("tasks".toList : Str), Json.arr (V.tasks.map Json.str))]
    (consMemberCost ("summary".toList) (costStr V.summary)
      (consMemberCost ("notes".toList) (costNotesValue V.notes)
        (lastMemberCost ("tasks".toList) (costTasksValue V.tasks))))
    (fun r => quoteStr ("summary".toList) ++ ':' :: (quoteStr V.summary ++ (',' ::
      (quoteStr ("notes".toList) ++ ':' ::
        ('[' :: (stringifyNotes V.notes ++ (']' :: (',' ::
          (quoteStr ("tasks".toList) ++ ':' ::
            ('[' :: (stringifyTasks V.tasks ++ (']' :: ('}' :: r)))))))))))))
    hsummaryM (fun rest => ⟨'"', _, rfl, by decide, by decide⟩)
  intro f rest
  have h2 := hobj f rest
  have hnorm : jsNormalize
      [(("summary".toList : Str), Json.str V.summary),
        (("notes".toList : Str), Json.arr (V.notes.map noteJson)),
        (("tasks".toList : Str), Json.arr (V.tasks.map Json.str))] =
      [(("summary".toList : Str), Json.str V.summary),
        (("notes".toList : Str), Json.arr (V.notes.map noteJson)),
        (("tasks".toList : Str), Json.arr (V.tasks.map Json.str))] := by
    simp [jsNormalize, objInsert,
      (by decide : (("summary".toList : Str) == ("notes".toList : Str)) = false),
      (by decide : (("summary".toList : Str) == ("tasks".toList : Str)) = false),
      (by decide : (("notes".toList : Str) == ("tasks".toList : Str)) = false)]
  have hshape : stringifySE V ++ rest =
      '{' :: (quoteStr ("summary".toList) ++ ':' :: (quoteStr V.summary ++ (',' ::
        (quoteStr ("notes".toList) ++ ':' ::
          ('[' :: (stringifyNotes V.notes ++ (']' :: (',' ::
            (quoteStr ("tasks".toList) ++ ':' ::
              ('[' :: (stringifyTasks V.tasks ++ (']' :: ('}' :: rest))))))))))))) := by
    simp [stringifySE, List.append_assoc]
  rw [hshape]
  simpa [costSE, hnorm, jsonOfSE] using h2

/-! ### Fuel bounds: the `length + 1` fuel of `JSONparse` suffices -/

theorem escBody_length (s : Str) : s.length ≤ (escBody s).length := by
  induction s with
  | nil => simp [escBody]
  | cons c t ih =>
    have h1 : 1 ≤ (escAux c).length := by
      unfold escAux
      repeat' split
      all_goals simp
    rw [show escBody (c :: t) = escAux c ++ escBody t from rfl]
    simp only [List.length_append, List.length_cons]
    omega

theorem costStr_le_quote (s : Str) : costStr s ≤ (quoteStr s).length := by
  have := escBody_length s
  unfold costStr quoteStr
  simp only [List.length_cons, List.length_append]
  simp
  omega

theorem costNote_le (n : Note) : costNote n ≤ (stringifyNote n).length := by
  have h1 := costStr_le_quote n.title
  have h2 := costStr_le_quote n.content
  have hk1 : (quoteStr ("title".toList)).length = 7 := by decide
  have hk2 : (quoteStr ("content".toList)).length = 9 := by decide
  unfold costNote consMemberCost lastMemberCost keyCost
  simp only [stringifyNote, List.length_cons, List.length_append, hk1, hk2]
  have hl1 : ("title".toList : Str).length = 5 := by decide
  have hl2 : ("content".toList : Str).length = 7 := by decide
  rw [hl1, hl2]
  omega

theorem costTasksElems_le (ts : List Str) :
    costTasksElems ts ≤ (stringifyTasks ts).length + 1 := by
  induction ts with
  | nil => simp [costTasksElems]
  | cons t ts2 ih =>
    cases ts2 with
    | nil =>
      have := costStr_le_quote t
      simp only [costTasksElems, lastElemCost, stringifyTasks, List.map_cons,
        List.map_nil, joinSep]
      omega
    | cons t2 ts3 =>
      have := costStr_le_quote t
      have h2 : stringifyTasks (t :: t2 :: ts3) =
          quoteStr t ++ ',' :: stringifyTasks (t2 :: ts3) := rfl
      rw [show costTasksElems (t :: t2 :: ts3) =
        consElemCost (costStr t) (costTasksElems (t2 :: ts3)) from rfl, h2]
      unfold consElemCost
      simp only [List.length_append, List.length_cons]
      omega

theorem costNotesElems_le (ns : List Note) :
    costNotesElems ns ≤ (stringifyNotes ns).length + 1 := by
  induction ns with
  | nil => simp [costNotesElems]
  | cons n ns2 ih =>
    cases ns2 with
    | nil =>
      have := costNote_le n
      simp only [costNotesElems, lastElemCost, stringifyNotes, List.map_cons,
        List.map_nil, joinSep]
      omega
    | cons n2 ns3 =>
      have := costNote_le n
      have h2 : stringifyNotes (n :: n2 :: ns3) =
          stringifyNote n ++ ',' :: stringifyNotes (n2 :: ns3) := rfl
      rw [show costNotesElems (n :: n2 :: ns3) =
        consElemCost (costNote n) (costNotesElems (n2 :: ns3)) from rfl, h2]
      unfold consElemCost
      simp only [List.length_append, List.length_cons]
      omega

theorem costTasksValue_le (ts : List Str) :
    costTasksValue ts ≤ (stringifyTasks ts).length + 2 := by
  cases ts with
  | nil => simp [costTasksValue]
  | cons t ts2 =>
    have := costTasksElems_le (t :: ts2)
    rw [show costTasksValue (t :: ts2) = costTasksElems (t :: ts2) + 1 from rfl]
    omega

theorem costNotesValue_le (ns : List Note) :
    costNotesValue ns ≤ (stringifyNotes ns).length + 2 := by
  cases ns with
  | nil => simp [costNotesValue]
  | cons n ns2 =>
    have := costNotesElems_le (n :: ns2)
    rw [show costNotesValue (n :: ns2) = costNotesElems (n :: ns2) + 1 from rfl]
    omega

theorem costSE_le (V : StructuredExtraction) :
    costSE V ≤ (stringifySE V).length + 1 := by
  have h1 := costStr_le_quote V.summary
  have h2 := costNotesValue_le V.notes
  have h3 := costTasksValue_le V.tasks
  have hk1 : (quoteStr ("summary".toList)).length = 9 := by decide
  have hk2 : (quoteStr ("notes".toList)).length = 7 := by decide
  have hk3 : (quoteStr ("tasks".toList)).length = 7 := by decide
  have hl1 : ("summary".toList : Str).length = 7 := by decide
  have hl2 : ("notes".toList : Str).length = 5 := by decide
  have hl3 : ("tasks".toList : Str).length = 5 := by decide
  unfold costSE consMemberCost lastMemberCost keyCost
  simp only [stringifySE, List.length_cons, List.length_append, hk1, hk2, hk3]
  rw [hl1, hl2, hl3]
  omega

/-- On a serialized `StructuredExtraction`, `JSON.parse` recovers exactly
the JSON value the record denotes. -/
theorem JSONparse_stringifySE (V : StructuredExtraction) :
    JSONparse (stringifySE V) = some (jsonOfSE V) := by
  unfold JSONparse
  have hle := costSE_le V
  have h := parseFuel_valueSE V ((stringifySE V).length + 1 - costSE V) []
  rw [show (stringifySE V).length + 1 - costSE V + costSE V =
    (stringifySE V).length + 1 from by omega] at h
  rw [List.append_nil] at h
  rw [h]
  rfl

theorem trim_brace_wrap (m : Str) :
    trim ('{' :: (m ++ ['}'])) = '{' :: (m ++ ['}']) := by
  apply trim_eq_self
  · intro c hc
    simp only [List.head?_cons, Option.some.injEq] at hc
    subst hc
    decide
  · intro c hc
    rw [show ('{' :: (m ++ ['}'])) = (('{' :: m) ++ ['}']) from by simp] at hc
    rw [List.getLast?_append] at hc
    simp only [List.getLast?_singleton] at hc
    rw [show (some '}').or (('{' :: m).getLast?) = some '}' from rfl] at hc
    simp only [Option.some.injEq] at hc
    subst hc
    decide

theorem trim_stringifySE (V : StructuredExtraction) :
    trim (stringifySE V) = stringifySE V := by
  obtain ⟨M, hM⟩ : ∃ M, stringifySE V = '{' :: (M ++ ['}']) :=
    ⟨quoteStr ("summary".toList) ++ ':' :: (quoteStr V.summary ++ ',' ::
      (quoteStr ("notes".toList) ++ ':' :: ('[' :: (stringifyNotes V.notes ++ ']' :: ',' ::
        (quoteStr ("tasks".toList) ++ ':' :: ('[' :: (stringifyTasks V.tasks ++ [']']))))))),
      by simp [stringifySE, List.append_assoc]⟩
  rw [hM]
  exact trim_brace_wrap M

/-! ## Claims about candidate selection (C4) -/

/-- Claim C4 (counterexample): when no fenced block is present the code
uses the raw reply text without trimming it — on the reply `" {}"` the
candidate keeps its leading space, refuting the claim that surrounding
whitespace is trimmed from the candidate. -/
theorem C4_counterexample :
    cleanContent (" {}".toList) = " {}".toList ∧
    trim (" {}".toList) = "{}".toList ∧
    (" {}".toList : Str) ≠ "{}".toList :=
  ⟨rfl, rfl, by decide⟩

/-- Claim C4 (amended): the extractor takes the first fenced block's
inner content as the candidate and trims it; with no fenced block the
entire reply text is the candidate, used as-is (untrimmed).  In
particular, for `preamble ⟍``⟍``⟍``json\n{...}\n⟍``⟍``⟍`` postamble` only the
trimmed `{...}` interior is kept, with preamble and postamble ignored. -/
theorem C4_candidate (pre inner post s : Str) (hpre : backtick ∉ pre)
    (hin : splitAtTriple inner = none) (hs : splitAtTriple s = none) :
    cleanContent (pre ++ wrapFence inner ++ post) = trim inner ∧
    cleanContent s = s :=
  ⟨cleanContent_wrapped pre inner post hpre hin, cleanContent_nofence s hs⟩

theorem C4_candidate_witness :
    (backtick ∉ "preamble ".toList ∧
      splitAtTriple ("\x7b\"a\":1\x7d".toList) = none ∧
      splitAtTriple ("no fence here".toList) = none) ∧
    (cleanContent ("preamble ".toList ++ wrapFence ("\x7b\"a\":1\x7d".toList) ++
        " postamble".toList) = trim ("\x7b\"a\":1\x7d".toList) ∧
      cleanContent ("no fence here".toList) = "no fence here".toList) :=
  ⟨⟨by decide, by decide, by decide⟩,
    C4_candidate ("preamble ".toList) ("\x7b\"a\":1\x7d".toList) (" postamble".toList)
      ("no fence here".toList) (by decide) (by decide) (by decide)⟩

/-! ## Claims about the extractor round-trip (C3) -/

/-- Claim C3 (counterexample): `JSON.stringify` does not escape
backticks, so a StructuredExtraction whose summary is three backticks
serializes to text containing a triple backtick; the fence regex then
closes the capture early and extraction fails instead of returning the
value. -/
theorem C3_counterexample :
    extractStep (wrapFence (stringifySE ⟨tbt, [], []⟩)) =
      .error (.parseFailure ("\x7b\"summary\":\"".toList)) ∧
    (Except.error (.parseFailure ("\x7b\"summary\":\"".toList)) :
      Except JsError Json) ≠ .ok (jsonOfSE ⟨tbt, [], []⟩) := by
  exact ⟨rfl, by simp⟩

/-- Claim C3 (amended): for every StructuredExtraction V whose serialized
form `JSON.stringify(V)` contains no three consecutive backticks, wrapping
the serialized form in a fenced code block and running the Response
Extractor returns a parsed value deep-equal to V. -/
theorem C3_roundTrip (V : StructuredExtraction)
    (h : splitAtTriple (stringifySE V) = none) :
    extractStep (wrapFence (stringifySE V)) = .ok (jsonOfSE V) := by
  unfold extractStep
  have hc : cleanContent (wrapFence (stringifySE V)) = trim (stringifySE V) := by
    have h2 := cleanContent_wrapped [] (stringifySE V) [] (by simp) h
    simpa using h2
  rw [hc, trim_stringifySE, JSONparse_stringifySE]

theorem C3_roundTrip_witness :
    splitAtTriple (stringifySE ⟨"Meeting notes here.".toList,
      [⟨"Groceries".toList, "buy milk".toList⟩], ["call dentist".toList]⟩) = none ∧
    extractStep (wrapFence (stringifySE ⟨"Meeting notes here.".toList,
      [⟨"Groceries".toList, "buy milk".toList⟩], ["call dentist".toList]⟩)) =
      .ok (jsonOfSE ⟨"Meeting notes here.".toList,
        [⟨"Groceries".toList, "buy milk".toList⟩], ["call dentist".toList]⟩) :=
  ⟨by decide, C3_roundTrip ⟨"Meeting notes here.".toList,
    [⟨"Groceries".toList, "buy milk".toList⟩], ["call dentist".toList]⟩ (by decide)⟩

/-! ## Claims about the response extractor (C5, C6) -/

/-- Claim C5 (confirmed): whenever extraction fails, the error is the
distinct malformed-payload error carrying the offending candidate text,
and it arises exactly when the candidate does not parse as JSON — no
other error kind can escape the extractor, and a parse failure is never
coerced or defaulted. -/
theorem C5_malformedPayload (s : Str) (e : JsError) (h : extractStep s = .error e) :
    e = .parseFailure (cleanContent s) ∧ JSONparse (cleanContent s) = none := by
  unfold extractStep at h
  cases hp : JSONparse (cleanContent s) with
  | some j =>
    rw [hp] at h
    exact absurd h (by simp)
  | none =>
    rw [hp] at h
    simp only [Except.error.injEq] at h
    exact ⟨h.symm, rfl⟩

theorem C5_malformedPayload_witness :
    JsError.parseFailure ("I cannot help with that.".toList) =
      .parseFailure (cleanContent ("I cannot help with that.".toList)) ∧
    JSONparse (cleanContent ("I cannot help with that.".toList)) = none :=
  C5_malformedPayload ("I cannot help with that.".toList)
    (.parseFailure ("I cannot help with that.".toList)) rfl

/-- Claim C6 (counterexample): extraction succeeds on the payload `{}`
even though all three fields are absent — the extractor performs no
field-presence or typing validation at all. -/
theorem C6_counterexample :
    extractStep ("{}".toList) = .ok (.obj []) ∧
    jsGet (.obj []) ("summary".toList) = .ok none ∧
    jsGet (.obj []) ("notes".toList) = .ok none ∧
    jsGet (.obj []) ("tasks".toList) = .ok none :=
  ⟨rfl, rfl, rfl, rfl⟩

/-- Claim C6 (amended): extraction succeeds exactly when the cleaned
candidate payload parses as JSON, independently of which fields the
parsed value has or their types (a mistyped `summary` is accepted);
failure of the parse fails the extraction as a whole. -/
theorem C6_extraction_is_parse_only :
    (∀ s : Str, (∃ j, extractStep s = .ok j) ↔ (JSONparse (cleanContent s)).isSome = true) ∧
    extractStep ("\x7b\"summary\":1\x7d".toList) =
      .ok (.obj [("summary".toList, .num ['1'])]) := by
  constructor
  · intro s
    unfold extractStep
    cases hp : JSONparse (cleanContent s) <;> simp
  · rfl

/-! ## Claims about the artifact writer on absent fields (C7) -/

theorem appendTasks_undefined (v : Vault) :
    appendTasks v none = .error .typeError := by
  unfold appendTasks
  split <;> rfl

/-- Claim C7 (counterexample): on a successfully parsed payload whose
`notes` field is absent, the artifact-writing step throws a TypeError
(iterating `undefined`) instead of treating the field as an empty
sequence — the summary file is still written first. -/
theorem C7_counterexample :
    jsGet (.obj [("summary".toList, .str ("s".toList))]) ("notes".toList) = .ok none ∧
    (outputArtifacts ("t".toList) (.obj [("summary".toList, .str ("s".toList))])
        ⟨outputDirs, []⟩).2 = .error .typeError ∧
    (outputArtifacts ("t".toList) (.obj [("summary".toList, .str ("s".toList))])
        ⟨outputDirs, []⟩).1.files =
      [(summaryPath ("t".toList), "s".toList)] :=
  ⟨rfl, rfl, rfl⟩

/-- Claim C7 (amended): when the parsed payload is an object whose
`notes` or `tasks` field is absent, the artifact-writing step fails (with
a thrown TypeError or an earlier storage error) — absent fields are not
treated as empty sequences. -/
theorem C7_absentFields (fn : Str) (fs : List (Str × Json)) (v : Vault)
    (h : fs.find? (fun e => e.1 == "notes".toList) = none ∨
         fs.find? (fun e => e.1 == "tasks".toList) = none) :
    (outputArtifacts fn (.obj fs) v).2 ≠ .ok () := by
  intro hok
  unfold outputArtifacts at hok
  simp only [jsGet] at hok
  rcases h with hmiss | hmiss
  · rw [hmiss] at hok
    simp only [Option.map_none'] at hok
    split at hok
    · simp at hok
    · simp [jsIterate] at hok
  · rw [hmiss] at hok
    simp only [Option.map_none'] at hok
    split at hok
    · simp at hok
    · split at hok
      · simp at hok
      · split at hok
        · simp at hok
        · simp [appendTasks_undefined] at hok

theorem C7_absentFields_witness :
    ((List.find? (fun e => e.1 == "notes".toList)
        [(("summary".toList : Str), Json.str ("s".toList))] = none) ∨
      (List.find? (fun e => e.1 == "tasks".toList)
        [(("summary".toList : Str), Json.str ("s".toList))] = none)) ∧
    (outputArtifacts ("t".toList) (.obj [("summary".toList, .str ("s".toList))])
        ⟨outputDirs, []⟩).2 ≠ .ok () :=
  ⟨Or.inl rfl,
    C7_absentFields ("t".toList) [(("summary".toList : Str), Json.str ("s".toList))]
      ⟨outputDirs, []⟩ (Or.inl rfl)⟩

/-! ## Claims about triggers and notifications (C8) -/

/-- Claim C8 (counterexample): an automatic file-creation invocation that
succeeds end to end produces zero user-visible notifications, not exactly
one — the watch handler has no try/catch and shows no Notice. -/
theorem C8_counterexample :
    (onFileCreated ⟨"k".toList⟩ ⟨"transcripts/t.md".toList, "t".toList, "c".toList⟩
        (.success (some ("\x7b\"summary\":\"s\",\"notes\":[],\"tasks\":[]\x7d".toList)))
        ⟨[], []⟩).result = .ok () ∧
    (onFileCreated ⟨"k".toList⟩ ⟨"transcripts/t.md".toList, "t".toList, "c".toList⟩
        (.success (some ("\x7b\"summary\":\"s\",\"notes\":[],\"tasks\":[]\x7d".toList)))
        ⟨[], []⟩).notices = [] ∧
    ([] : List Str).length ≠ 1 :=
  ⟨rfl, rfl, by decide⟩

/-- Claim C8 (amended): both triggers invoke the same pipeline entry
point `parseAndOutput` with identical semantics; but only the manual
command wraps it in a notification — it shows exactly one Notice (when
the API key is set), while the automatic trigger shows none at all. -/
theorem C8_triggers (settings : Settings) (f : ActiveFile) (file : CreatedFile)
    (fetch : FetchOutcome) (v : Vault)
    (hkey : settings.apiKey ≠ []) (hmd : f.extension = "md".toList)
    (hpath : watchFolderPath.isPrefixOf file.path = true) :
    onFileCreated settings file fetch v =
        parseAndOutput settings file.basename file.content fetch v ∧
    (onFileCreated settings file fetch v).notices = [] ∧
    (manualParseCommand settings (some f) fetch v).notices.length = 1 := by
  have hauto : onFileCreated settings file fetch v =
      parseAndOutput settings file.basename file.content fetch v := by
    unfold onFileCreated
    rw [if_pos hpath]
  refine ⟨hauto, ?_, ?_⟩
  · rw [hauto]
    exact parseAndOutput_noNotices settings file.basename file.content fetch v hkey
  · have hno := parseAndOutput_noNotices settings f.basename f.content fetch v hkey
    simp only [manualParseCommand]
    rw [if_pos hmd]
    cases hres : (parseAndOutput settings f.basename f.content fetch v).result <;>
      simp [hres, hno]

theorem C8_triggers_witness :
    ((Settings.apiKey ⟨"k".toList⟩ ≠ []) ∧
      (ActiveFile.extension ⟨"t".toList, "md".toList, "c".toList⟩ = "md".toList) ∧
      (watchFolderPath.isPrefixOf
        (CreatedFile.path ⟨"transcripts/t.md".toList, "t".toList, "c".toList⟩) = true)) ∧
    (onFileCreated ⟨"k".toList⟩ ⟨"transcripts/t.md".toList, "t".toList, "c".toList⟩
        .fetchFailed ⟨[], []⟩ =
      parseAndOutput ⟨"k".toList⟩ ("t".toList) ("c".toList) .fetchFailed ⟨[], []⟩ ∧
    (onFileCreated ⟨"k".toList⟩ ⟨"transcripts/t.md".toList, "t".toList, "c".toList⟩
        .fetchFailed ⟨[], []⟩).notices = [] ∧
    (manualParseCommand ⟨"k".toList⟩ (some ⟨"t".toList, "md".toList, "c".toList⟩)
        .fetchFailed ⟨[], []⟩).notices.length = 1) :=
  ⟨⟨by decide, rfl, rfl⟩,
    C8_triggers ⟨"k".toList⟩ ⟨"t".toList, "md".toList, "c".toList⟩
      ⟨"transcripts/t.md".toList, "t".toList, "c".toList⟩ .fetchFailed ⟨[], []⟩
      (by decide) rfl rfl⟩

theorem C9_missingKey_witness :
    (parseAndOutput ⟨[]⟩ ("t".toList) ("c".toList) .fetchFailed ⟨[], []⟩).result
        = .error .apiKeyNotSet ∧
    (parseAndOutput ⟨[]⟩ ("t".toList) ("c".toList) .fetchFailed ⟨[], []⟩).networkCalled
        = false ∧
    (parseAndOutput ⟨[]⟩ ("t".toList) ("c".toList) .fetchFailed ⟨[], []⟩).notices
        = [apiKeyNotice] :=
  C9_missingKey ⟨[]⟩ ("t".toList) ("c".toList) .fetchFailed ⟨[], []⟩ rfl

end OpenAugi
